import Mathlib

/-!
# Shallow embedding of `iir.py` (apirek/plotutils)

`iir.py` is a single-pass stream transformer: it parses column-selector
tokens into Python slices (`_slice`), resolves them against each input
line's field count (`to_indices`), parses the selected fields as floats
(`to_float`), maintains a per-position exponential-moving-average
accumulator (`avgs`), and writes one delimiter-joined output line per
input line.  On a broken downstream pipe its handler requests exit
code 32, but the line that failed to write stays in stdout's buffer, the
interpreter's shutdown flush of that buffer fails against the closed
pipe, and the failing finalization makes the process exit with
status 120 instead.

Python floats (IEEE-754 binary64) are embedded as exact rationals
extended with a NaN element; every arithmetic operation rounds its exact
rational result to 53 significand bits, round-to-nearest ties-to-even,
with unbounded exponent (overflow, underflow/subnormals, signed zeros and
infinities are outside the range of values arising here and are not
modelled).  NaN propagates through every operation, as in IEEE-754.
-/

attribute [local semireducible] Rat.mul Rat.add Rat.sub Rat.inv

namespace Iir

/-- `⌊log₂ n⌋` (0 for `n ≤ 1`), with explicit fuel (`n` itself suffices,
as the argument halves each step). -/
def natLog2Aux : Nat → Nat → Nat
  | 0, _ => 0
  | fuel + 1, n => if 2 ≤ n then natLog2Aux fuel (n / 2) + 1 else 0

/-- `⌊log₂ n⌋` for `n ≥ 1`. -/
def natLog2 (n : Nat) : Nat := natLog2Aux n n

/-- `2 ^ e` as a rational, for an integer (possibly negative) `e`. -/
def pow2Q : Int → ℚ
  | .ofNat k => ((2 ^ k : Nat) : ℚ)
  | .negSucc k => 1 / ((2 ^ (k + 1) : Nat) : ℚ)

/-- Floor of the base-2 logarithm of a positive rational.
For `a = p/q` with `p, q ≥ 1`, `natLog2 p - natLog2 q` is within one of
`⌊log₂ a⌋`, and a single comparison corrects it. -/
def floorLog2Q (a : ℚ) : Int :=
  let e0 : Int := (natLog2 a.num.natAbs : Int) - (natLog2 a.den : Int)
  if pow2Q e0 ≤ a then e0 else e0 - 1

/-- Round a rational to an integer, round-half-to-even (IEEE default). -/
def roundHalfEven (x : ℚ) : Int :=
  let f := ⌊x⌋
  let r := x - (f : ℚ)
  if r < 1 / 2 then f
  else if 1 / 2 < r then f + 1
  else if f % 2 = 0 then f else f + 1

/-- Round an exact rational to the nearest IEEE-754 binary64 value
(53-bit significand, round-to-nearest ties-to-even, unbounded exponent). -/
def roundB64 (x : ℚ) : ℚ :=
  if x = 0 then 0
  else
    let a := |x|
    let e := floorLog2Q a
    let m := roundHalfEven (a * pow2Q ((52 : Int) - e))
    (if x < 0 then -1 else 1) * (m : ℚ) * pow2Q (e - 52)

/-- A Python float: either NaN or an exact (dyadic) rational value. -/
inductive PyFloat where
  | nan : PyFloat
  | num : ℚ → PyFloat
  deriving DecidableEq, Repr

/-- Runtime exceptions of the Python fragment under study. -/
inductive PyErr where
  | valueError
  | indexError
  | zeroDivisionError
  deriving DecidableEq, Repr

/-- Decidable equality of `Except` results, for evaluating the embedded
functions on concrete inputs. -/
instance exceptDecEq {ε α : Type} [DecidableEq ε] [DecidableEq α] : DecidableEq (Except ε α)
  | .error a, .error b =>
    if h : a = b then .isTrue (by rw [h])
    else .isFalse (fun hc => h (by injection hc))
  | .error _, .ok _ => .isFalse (fun hc => by injection hc)
  | .ok _, .error _ => .isFalse (fun hc => by injection hc)
  | .ok a, .ok b =>
    if h : a = b then .isTrue (by rw [h])
    else .isFalse (fun hc => h (by injection hc))

/-- `x + y` on Python floats: NaN-propagating, correctly rounded. -/
def pyAdd : PyFloat → PyFloat → PyFloat
  | .num a, .num b => .num (roundB64 (a + b))
  | _, _ => .nan

/-- `x - y` on Python floats: NaN-propagating, correctly rounded. -/
def pySub : PyFloat → PyFloat → PyFloat
  | .num a, .num b => .num (roundB64 (a - b))
  | _, _ => .nan

/-- `x * n` for a Python float `x` and int `n`: the int is converted to a
float (rounded; exact for every `n` arising here), then a correctly
rounded float multiplication. -/
def pyMulInt (x : PyFloat) (n : Int) : PyFloat :=
  match x with
  | .num a => .num (roundB64 (a * roundB64 (n : ℚ)))
  | .nan => .nan

/-- `x / n` for a Python float `x` and int `n`: `ZeroDivisionError` when
`n = 0` (Python raises even for a NaN numerator), otherwise the int is
converted to a float and the division is correctly rounded. -/
def pyDivInt (x : PyFloat) (n : Int) : Except PyErr PyFloat :=
  if n = 0 then .error .zeroDivisionError
  else match x with
    | .num a => .ok (.num (roundB64 (a / roundB64 (n : ℚ))))
    | .nan => .ok .nan

/-! ## Numeric text parsing (`int(s)`, `float(s)`) and rendering (`str(x)`)

The decimal cores of Python's `int` and `float` constructors: an optional
sign followed by digits (for `float`, with an optional fraction part).
Inputs outside this subset (exponents, `inf`/`nan` literals, embedded
underscores, surrounding whitespace) do not occur in this development;
an unparseable field is what the claims exercise, and it is reported as
`none` (Python: `ValueError`). -/

/-- Value of a decimal digit character, `none` for a non-digit. -/
def digitVal (c : Char) : Option Nat :=
  if '0' ≤ c ∧ c ≤ '9' then some (c.toNat - '0'.toNat) else none

/-- Fold a string of decimal digits into a natural number; `none` if any
character is not a digit. -/
def parseDigitsAux : List Char → Nat → Option Nat
  | [], acc => some acc
  | c :: cs, acc =>
    match digitVal c with
    | some d => parseDigitsAux cs (acc * 10 + d)
    | none => none

/-- `int(s)`: optional sign then a nonempty digit string. -/
def parsePyInt : List Char → Option Int
  | [] => none
  | '-' :: cs =>
    match cs, parseDigitsAux cs 0 with
    | _ :: _, some m => some (-(m : Int))
    | _, _ => none
  | '+' :: cs =>
    match cs, parseDigitsAux cs 0 with
    | _ :: _, some m => some (m : Int)
    | _, _ => none
  | cs => (parseDigitsAux cs 0).map (fun m => (m : Int))

/-- Unsigned decimal literal `digits [. digits]` (at least one digit
overall), as an exact rational. -/
def parseUnsignedFloat (cs : List Char) : Option ℚ :=
  let ip := cs.takeWhile (fun c => c ≠ '.')
  let rest := cs.dropWhile (fun c => c ≠ '.')
  match rest with
  | [] =>
    match cs with
    | [] => none
    | _ => (parseDigitsAux cs 0).map (fun m => (m : ℚ))
  | _ :: fp =>
    if fp.contains '.' then none
    else match ip ++ fp with
      | [] => none
      | ds => (parseDigitsAux ds 0).map (fun m => (m : ℚ) / (10 : ℚ) ^ fp.length)

/-- The decimal core of Python's `float(s)`: exact rational value of the
literal, then correctly rounded to binary64 by the caller. -/
def parsePyFloat (s : List Char) : Option ℚ :=
  match s with
  | '-' :: cs => (parseUnsignedFloat cs).map Neg.neg
  | '+' :: cs => parseUnsignedFloat cs
  | cs => parseUnsignedFloat cs

/-- `to_float` (iir.py:34-38): parse a field as a float, mapping a parse
failure (`ValueError`) to NaN. -/
def to_float (field : String) : PyFloat :=
  match parsePyFloat field.toList with
  | some q => .num (roundB64 q)
  | none => .nan

/-- Number of times `p ≥ 2` divides `n`, with explicit fuel (`n` itself
suffices, as the argument at least halves each step). -/
def powCountAux (p : Nat) : Nat → Nat → Nat
  | 0, _ => 0
  | fuel + 1, n => if 2 ≤ p ∧ 1 ≤ n ∧ n % p = 0 then powCountAux p fuel (n / p) + 1 else 0

/-- Number of times `p` divides `n`. -/
def powCount (p n : Nat) : Nat := powCountAux p n n

/-- Left-pad a digit string with zeros to width `w`. -/
def padZeros (s : String) (w : Nat) : String :=
  String.mk (List.replicate (w - s.length) '0') ++ s

/-- Decimal rendering of a rational with a finite decimal expansion
(every binary64 value is such), with at least one fractional digit, as
Python's `str` prints floats (`str(10.0) = "10.0"`).  Python prints the
shortest round-tripping decimal; for every value rendered in this
development the exact expansion is that shortest form. -/
def ratDecimalStr (q : ℚ) : String :=
  let d := q.den
  let e := max (max (powCount 2 d) (powCount 5 d)) 1
  let m := q.num * ((10 ^ e : Nat) : Int) / (d : Int)
  let a := m.natAbs
  (if m < 0 then "-" else "") ++ toString (a / 10 ^ e) ++ "." ++ padZeros (toString (a % 10 ^ e)) e

/-- `str(x)` for a Python float. -/
def pyStr : PyFloat → String
  | .nan => "nan"
  | .num q => ratDecimalStr q

/-! ## Python slices: `_slice`, `slice.indices`, `range`, `to_indices` -/

/-- A Python `slice` object: optional start, stop, step. -/
structure PySlice where
  start : Option Int
  stop : Option Int
  step : Option Int
  deriving DecidableEq, Repr

/-- `slice(*args)`: one argument is the stop, two are start/stop, three
are start/stop/step; any other arity is a `TypeError` (`none`). -/
def sliceOfArgs : List (Option Int) → Option PySlice
  | [b] => some ⟨none, b, none⟩
  | [a, b] => some ⟨a, b, none⟩
  | [a, b, c] => some ⟨a, b, c⟩
  | _ => none

/-- Split a character list on each occurrence of `sep`, as Python's
`str.split(sep)` for a one-character separator. -/
def splitOnChar (sep : Char) : List Char → List (List Char)
  | [] => [[]]
  | c :: cs =>
    if c = sep then [] :: splitOnChar sep cs
    else
      match splitOnChar sep cs with
      | g :: gs => (c :: g) :: gs
      | [] => [[c]]

/-- The slice-building stage of `_slice` (iir.py:26-29): build the slice
from the split parts, then special-case a stop-only slice (`start is
None and stop is not None`) into the single-index slice
`slice(stop, stop + 1)` (its step reset to `None`). -/
def sliceFromParts (parts : List (Option Int)) : Option PySlice := do
  let sl ← sliceOfArgs parts
  match sl.start, sl.stop with
  | none, some b => pure ⟨some b, some (b + 1), none⟩
  | _, _ => pure sl

/-- `_slice` (iir.py:25-29): split the token on `":"`, map nonempty parts
through `int` and empty parts to `None`, and build the slice.  `none` is
a parse error (`ValueError`/`TypeError`), which `argparse` turns into a
fatal usage error. -/
def _slice (arg : String) : Option PySlice := do
  let parts ← (splitOnChar ':' arg.toList).mapM
    (fun p => match p with
      | [] => some none
      | _ => (parsePyInt p).map some)
  sliceFromParts parts

/-- `slice.indices(len)` (CPython `PySlice_GetIndicesEx`): the step
defaults to 1 and must be nonzero (`ValueError` otherwise); missing or
out-of-range bounds are clamped into `[0, len]` (step > 0) or
`[-1, len-1]` (step < 0), negative bounds counting from the end. -/
def PySlice.indices (s : PySlice) (len : Nat) : Except PyErr (Int × Int × Int) :=
  let step := s.step.getD 1
  if step = 0 then .error .valueError
  else
    let L : Int := len
    let lower : Int := if step < 0 then -1 else 0
    let upper : Int := if step < 0 then L - 1 else L
    let start :=
      match s.start with
      | none => if step < 0 then upper else lower
      | some a => if a < 0 then max (a + L) lower else min a upper
    let stop :=
      match s.stop with
      | none => if step < 0 then lower else upper
      | some b => if b < 0 then max (b + L) lower else min b upper
    .ok (start, stop, step)

/-- `range(start, stop, step)` for `step > 0`: counts up while below
`stop`.  Fuel `(stop - start).toNat` suffices since each step advances by
at least one. -/
def rangeUpAux (stop step : Int) : Nat → Int → List Int
  | 0, _ => []
  | fuel + 1, start => if start < stop then start :: rangeUpAux stop step fuel (start + step) else []

/-- `range(start, stop, step)` for `step < 0`: counts down while above
`stop`. -/
def rangeDownAux (stop step : Int) : Nat → Int → List Int
  | 0, _ => []
  | fuel + 1, start => if stop < start then start :: rangeDownAux stop step fuel (start + step) else []

/-- Python `range(start, stop, step)` as a list (`step ≠ 0` is enforced
upstream by `slice.indices`). -/
def pyRange (start stop step : Int) : List Int :=
  if 0 < step then rangeUpAux stop step (stop - start).toNat start
  else if step < 0 then rangeDownAux stop step (start - stop).toNat start
  else []

/-- `to_indices` (iir.py:31-32): resolve each slice against the line's
field count and concatenate the resulting index lists in order. -/
def to_indices (slices : List PySlice) (fields : List String) : Except PyErr (List Int) :=
  match slices with
  | [] => .ok []
  | s :: rest => do
    let (a, b, st) ← s.indices fields.length
    let is ← to_indices rest fields
    pure (pyRange a b st ++ is)

/-! ## The read-process-write loop (iir.py:55-69) -/

/-- One step of Python's `str.split(sep)` machinery for a nonempty
separator `s0 :: srest`: scan left to right, breaking at each
non-overlapping occurrence of the separator.  Fuel `l.length` suffices
since every step consumes at least one character. -/
def splitAux (s0 : Char) (srest : List Char) : Nat → List Char → List (List Char)
  | _, [] => [[]]
  | 0, l => [l]
  | fuel + 1, c :: cs =>
    if List.isPrefixOf (s0 :: srest) (c :: cs) then
      [] :: splitAux s0 srest fuel (cs.drop srest.length)
    else
      match splitAux s0 srest fuel cs with
      | g :: gs => (c :: g) :: gs
      | [] => [[c]]

/-- `line.split(delimiter)`: `ValueError` for an empty separator. -/
def pySplit (sep : String) (s : String) : Except PyErr (List String) :=
  match sep.toList with
  | [] => .error .valueError
  | s0 :: srest => .ok ((splitAux s0 srest s.toList.length s.toList).map (fun cs => String.mk cs))

/-- `line.removesuffix("\n")`: drop one trailing newline if present. -/
def removeNewline (line : String) : String :=
  let cs := line.toList
  if cs.getLast? = some '\n' then String.mk cs.dropLast else String.mk cs

/-- `fields[i]` for a Python int index: negative indices count from the
end; out of range raises `IndexError`. -/
def pyGet (l : List String) (i : Int) : Except PyErr String :=
  let j := if i < 0 then i + l.length else i
  if h : 0 ≤ j ∧ j.toNat < l.length then .ok (l.get ⟨j.toNat, h.2⟩) else .error .indexError

/-- One accumulator update (iir.py:62): `((avgs[i] * n) - avgs[i] + values[i]) / n`
in the source's exact evaluation order, each operation correctly
rounded. -/
def emaStep (n : Int) (a v : PyFloat) : Except PyErr PyFloat :=
  pyDivInt (pyAdd (pySub (pyMulInt a n) a) v) n

/-- The update loop (iir.py:61-62): `for i in range(len(values)):
avgs[i] = ((avgs[i] * n) - avgs[i] + values[i]) / n`.  Positions of
`avgs` beyond `len(values)` are untouched; a `values` longer than `avgs`
reaches an out-of-range `avgs[i]` and raises `IndexError`; `n = 0`
raises `ZeroDivisionError` at the first division. -/
def updateLoop (n : Int) : List PyFloat → List PyFloat → Except PyErr (List PyFloat)
  | avgs, [] => .ok avgs
  | [], _ :: _ => .error .indexError
  | a :: as, v :: vs => do
    let a2 ← emaStep n a v
    let rest ← updateLoop n as vs
    pure (a2 :: rest)

/-- The per-line accumulator transition (iir.py:59-62): on the first line
(`avgs is None`) the accumulator is first set to a copy of `values`, then
the update loop runs (over equal-length lists). -/
def stepAvgs (n : Int) (avgs? : Option (List PyFloat)) (values : List PyFloat) :
    Except PyErr (List PyFloat) :=
  updateLoop n (avgs?.getD values) values

/-- The sequence of accumulator states produced by feeding the given
rows of projected values through `stepAvgs`, or the first uncaught
exception. -/
def runTrace (n : Int) : Option (List PyFloat) → List (List PyFloat) → Except PyErr (List (List PyFloat))
  | _, [] => .ok []
  | st, row :: rows => do
    let st2 ← stepAvgs n st row
    let rest ← runTrace n (some st2) rows
    pure (st2 :: rest)

/-- The configuration surviving argument parsing (iir.py:43-52): the
field delimiter (default tab), the selector slices (default
`[slice(None)]`), and the window `n`.  The source's startup check
`assert 1 <= num` (iir.py:53) names an undefined variable and is in any
case stripped by the `-OO` in the script's interpreter line, so no
validation of `n` reaches the loop. -/
structure Config where
  delimiter : String
  slices : List PySlice
  n : Int
  deriving DecidableEq, Repr

/-- How a run of the process ends. -/
inductive Status where
  /-- Standard input exhausted: the loop ends and the interpreter exits 0. -/
  | finished
  /-- The process terminated with OS-visible exit status `code`;
  `stderrClosed` records whether `sys.stderr.close()` ran first
  (iir.py:68, suppressing any further error reporting). -/
  | exited (code : Nat) (stderrClosed : Bool)
  /-- An uncaught exception aborts the process. -/
  | crashed (e : PyErr)
  deriving DecidableEq, Repr

/-- The observable outcome of a run: the lines written to standard
output, and how the process ended. -/
structure RunResult where
  outputs : List String
  status : Status
  deriving DecidableEq, Repr

/-- The body of the loop for one input line (iir.py:57-63): strip the
newline, split on the delimiter, resolve the selectors, parse the
selected fields as floats, update (or initialize) the accumulator, and
render the output line. -/
def processLine (cfg : Config) (avgs? : Option (List PyFloat)) (line : String) :
    Except PyErr (List PyFloat × String) := do
  let fields ← pySplit cfg.delimiter (removeNewline line)
  let idxs ← to_indices cfg.slices fields
  let values ← idxs.mapM (fun i => (pyGet fields i).map to_float)
  let avgs2 ← stepAvgs cfg.n avgs? values
  pure (avgs2, String.intercalate cfg.delimiter (avgs2.map pyStr))

/-- The read-process-write loop (iir.py:55-69).  `broken? = some k`
means the downstream pipe accepts `k` more lines and then the next
`print` raises `BrokenPipeError`; `broken? = none` means the pipe stays
open.  Each successful `print` writes exactly one flushed output line.

On `BrokenPipeError` the handler closes stderr and calls `sys.exit(32)`
(iir.py:68-69), but the line that failed to write remains in stdout's
buffer: the interpreter's shutdown flush of that buffer fails against
the closed pipe, the failing finalization overrides the requested exit
code, and the process exits with status 120 (the shutdown error report
itself is suppressed by the closed stderr).  Verified empirically
against CPython with this exact handler pattern; the `os.dup2` of
devnull over stdout from the Python docs' broken-pipe recipe, which
would preserve exit code 32, is absent from iir.py. -/
def runAux (cfg : Config) : Option (List PyFloat) → Option Nat → List String → RunResult
  | _, _, [] => ⟨[], .finished⟩
  | avgs?, broken?, line :: rest =>
    match processLine cfg avgs? line with
    | .error e => ⟨[], .crashed e⟩
    | .ok (avgs2, out) =>
      match broken? with
      | some 0 => ⟨[], .exited 120 true⟩
      | some (k + 1) =>
        let r := runAux cfg (some avgs2) (some k) rest
        ⟨out :: r.outputs, r.status⟩
      | none =>
        let r := runAux cfg (some avgs2) none rest
        ⟨out :: r.outputs, r.status⟩

/-- A full run of `iir.py` from an uninitialized accumulator. -/
def run (cfg : Config) (broken? : Option Nat) (lines : List String) : RunResult :=
  runAux cfg none broken? lines

/-- The value `emaStep` yields when it does not raise (i.e. when
`n ≠ 0`), as a total function, for stating the update loop's result. -/
def emaVal (n : Int) (a v : PyFloat) : PyFloat :=
  match pyAdd (pySub (pyMulInt a n) a) v with
  | .nan => .nan
  | .num q => .num (roundB64 (q / roundB64 (n : ℚ)))

/-- Resolve one selector token against a line's fields: parse it with
`_slice` and list the selected field indices. -/
def resolveToken (arg : String) (fields : List String) : Option (List Int) :=
  (_slice arg).bind (fun s => (to_indices [s] fields).toOption)

/-! ## Bounds of resolved slice indices -/

/-- Every element of an upward `range` lies in `[start, stop)`. -/
theorem rangeUpAux_mem (stop step : Int) (hst : 0 < step) :
    ∀ (fuel : Nat) (start i : Int), i ∈ rangeUpAux stop step fuel start → start ≤ i ∧ i < stop := by
  intro fuel
  induction fuel with
  | zero => intro start i h; simp [rangeUpAux] at h
  | succ f ih =>
    intro start i h
    simp only [rangeUpAux] at h
    split at h
    · rcases List.mem_cons.mp h with rfl | h2
      · exact ⟨le_refl i, by assumption⟩
      · have h3 := ih (start + step) i h2
        exact ⟨by omega, h3.2⟩
    · simp at h

/-- Every element of a downward `range` lies in `(stop, start]`. -/
theorem rangeDownAux_mem (stop step : Int) (hst : step < 0) :
    ∀ (fuel : Nat) (start i : Int), i ∈ rangeDownAux stop step fuel start → stop < i ∧ i ≤ start := by
  intro fuel
  induction fuel with
  | zero => intro start i h; simp [rangeDownAux] at h
  | succ f ih =>
    intro start i h
    simp only [rangeDownAux] at h
    split at h
    · rcases List.mem_cons.mp h with rfl | h2
      · exact ⟨by assumption, le_refl i⟩
      · have h3 := ih (start + step) i h2
        exact ⟨h3.1, by omega⟩
    · simp at h

/-- `slice.indices` clamps both bounds into the valid window: into
`[0, len]` for a positive step, into `[-1, len - 1]` for a negative
one. -/
theorem indices_ok_cases (s : PySlice) (len : Nat) (a b st : Int)
    (h : s.indices len = .ok (a, b, st)) :
    (0 < st ∧ 0 ≤ a ∧ a ≤ (len : Int) ∧ 0 ≤ b ∧ b ≤ (len : Int)) ∨
    (st < 0 ∧ -1 ≤ a ∧ a ≤ (len : Int) - 1 ∧ -1 ≤ b ∧ b ≤ (len : Int) - 1) := by
  obtain ⟨os, ot, op⟩ := s
  have hL : (0 : Int) ≤ (len : Int) := Int.natCast_nonneg len
  simp only [PySlice.indices] at h
  split at h
  · cases h
  · rename_i hstep0
    rw [Except.ok.injEq, Prod.mk.injEq, Prod.mk.injEq] at h
    obtain ⟨ha, hb, hst⟩ := h
    rcases os with _ | sa <;> rcases ot with _ | sb <;>
      simp only [Int.max_def, Int.min_def] at ha hb <;>
      split_ifs at ha hb <;> omega

/-- Every index produced by resolving one slice against a field count
`len` lies in `[0, len)`. -/
theorem pyRange_indices_bounds (s : PySlice) (len : Nat) (a b st : Int)
    (h : s.indices len = .ok (a, b, st)) :
    ∀ i ∈ pyRange a b st, 0 ≤ i ∧ i < (len : Int) := by
  intro i hi
  rcases indices_ok_cases s len a b st h with ⟨hpos, ha0, haL, hb0, hbL⟩ | ⟨hneg, ha0, haL, hb0, hbL⟩
  · rw [pyRange, if_pos hpos] at hi
    have := rangeUpAux_mem b st hpos _ a i hi
    omega
  · rw [pyRange, if_neg (by omega), if_pos hneg] at hi
    have := rangeDownAux_mem b st hneg _ a i hi
    omega

/-- Inversion for a successful `Except` bind. -/
theorem except_bind_ok {ε α β : Type} {x : Except ε α} {f : α → Except ε β} {b : β}
    (h : (x >>= f) = .ok b) : ∃ a, x = .ok a ∧ f a = .ok b := by
  cases x with
  | error e => cases h
  | ok a => exact ⟨a, rfl, h⟩

/-- Every index produced by `to_indices` lies in `[0, len fields)`. -/
theorem to_indices_ok_bounds (slices : List PySlice) (fields : List String) (l : List Int)
    (h : to_indices slices fields = .ok l) :
    ∀ i ∈ l, 0 ≤ i ∧ i < (fields.length : Int) := by
  induction slices generalizing l with
  | nil =>
    simp only [to_indices] at h
    cases h
    simp
  | cons s rest ih =>
    simp only [to_indices] at h
    obtain ⟨⟨a, b, st⟩, hs, h2⟩ := except_bind_ok h
    obtain ⟨is, hrest, h3⟩ := except_bind_ok h2
    cases h3
    intro i hi
    rcases List.mem_append.mp hi with hi | hi
    · exact pyRange_indices_bounds s fields.length a b st hs i hi
    · exact ih is hrest i hi

/-! ## Properties of the EMA update loop -/

/-- A successful `Except` bind of an `ok` value reduces. -/
theorem exceptBindOk {ε α β : Type} (a : α) (f : α → Except ε β) :
    (Except.ok a >>= f) = f a := rfl

/-- An `Except` bind of an error is that error. -/
theorem exceptBindErr {ε α β : Type} (e : ε) (f : α → Except ε β) :
    ((Except.error e : Except ε α) >>= f) = .error e := rfl

/-- With a nonzero window the update step never raises and computes
`emaVal`. -/
theorem emaStep_ok_of_ne (n : Int) (hn : n ≠ 0) (a v : PyFloat) :
    emaStep n a v = .ok (emaVal n a v) := by
  unfold emaStep emaVal pyDivInt
  rw [if_neg hn]
  cases pyAdd (pySub (pyMulInt a n) a) v <;> rfl

/-- A NaN incoming value makes the update step produce NaN. -/
theorem emaStep_nan_value (n : Int) (a x : PyFloat)
    (h : emaStep n a .nan = .ok x) : x = .nan := by
  unfold emaStep pyDivInt at h
  have hm : pyAdd (pySub (pyMulInt a n) a) PyFloat.nan = .nan := by
    cases pySub (pyMulInt a n) a <;> rfl
  rw [hm] at h
  split at h
  · cases h
  · cases h; rfl

/-- A NaN accumulator stays NaN through the update step. -/
theorem emaStep_nan_acc (n : Int) (v x : PyFloat)
    (h : emaStep n .nan v = .ok x) : x = .nan := by
  unfold emaStep pyDivInt at h
  have hm : pyAdd (pySub (pyMulInt PyFloat.nan n) PyFloat.nan) v = .nan := by
    cases v <;> rfl
  rw [hm] at h
  split at h
  · cases h
  · cases h; rfl

/-- A successful update loop preserves the accumulator length. -/
theorem updateLoop_ok_length (n : Int) :
    ∀ (values avgs l : List PyFloat), updateLoop n avgs values = .ok l → l.length = avgs.length := by
  intro values
  induction values with
  | nil =>
    intro avgs l h
    simp only [updateLoop] at h
    cases h
    rfl
  | cons v vs ih =>
    intro avgs l h
    cases avgs with
    | nil => cases h
    | cons a as =>
      simp only [updateLoop] at h
      obtain ⟨a2, hema, h2⟩ := except_bind_ok h
      obtain ⟨rest, hrest, h3⟩ := except_bind_ok h2
      cases h3
      simp [ih as rest hrest]

/-- With a nonzero window and no more values than accumulators, the
update loop succeeds: the first `len values` positions are updated by
the EMA step, the remaining positions are untouched. -/
theorem updateLoop_ok_of_le (n : Int) (hn : n ≠ 0) :
    ∀ (values avgs : List PyFloat), values.length ≤ avgs.length →
      updateLoop n avgs values =
        .ok (List.zipWith (emaVal n) avgs values ++ avgs.drop values.length) := by
  intro values
  induction values with
  | nil => intro avgs h; simp [updateLoop]
  | cons v vs ih =>
    intro avgs h
    cases avgs with
    | nil => simp at h
    | cons a as =>
      have h2 : vs.length ≤ as.length := by simpa using h
      simp only [updateLoop, emaStep_ok_of_ne n hn, exceptBindOk, ih as h2]
      rfl

/-- With a nonzero window and more values than accumulators, the update
loop raises `IndexError`. -/
theorem updateLoop_err_of_gt (n : Int) (hn : n ≠ 0) :
    ∀ (values avgs : List PyFloat), avgs.length < values.length →
      updateLoop n avgs values = .error .indexError := by
  intro values
  induction values with
  | nil => intro avgs h; simp at h
  | cons v vs ih =>
    intro avgs h
    cases avgs with
    | nil => rfl
    | cons a as =>
      have h2 : as.length < vs.length := by simpa using h
      simp only [updateLoop, emaStep_ok_of_ne n hn, exceptBindOk, ih as h2, exceptBindErr]

/-- Accumulator positions at or beyond the incoming value count are
unchanged by a successful update loop. -/
theorem updateLoop_ok_get_ge (n : Int) :
    ∀ (values avgs l : List PyFloat), updateLoop n avgs values = .ok l →
      ∀ i : Nat, values.length ≤ i → l.get? i = avgs.get? i := by
  intro values
  induction values with
  | nil =>
    intro avgs l h i _
    simp only [updateLoop] at h
    cases h
    rfl
  | cons v vs ih =>
    intro avgs l h i hi
    cases avgs with
    | nil => cases h
    | cons a as =>
      simp only [updateLoop] at h
      obtain ⟨a2, hema, h2⟩ := except_bind_ok h
      obtain ⟨rest, hrest, h3⟩ := except_bind_ok h2
      cases h3
      cases i with
      | zero => simp at hi
      | succ j => simpa using ih as rest hrest j (by simpa using hi)

/-- A NaN incoming value at position `i` makes position `i` of the
result NaN. -/
theorem updateLoop_nan_of_value (n : Int) :
    ∀ (values avgs l : List PyFloat), updateLoop n avgs values = .ok l →
      ∀ i : Nat, values.get? i = some .nan → l.get? i = some .nan := by
  intro values
  induction values with
  | nil => intro avgs l _ i hv; simp at hv
  | cons v vs ih =>
    intro avgs l h i hv
    cases avgs with
    | nil => cases h
    | cons a as =>
      simp only [updateLoop] at h
      obtain ⟨a2, hema, h2⟩ := except_bind_ok h
      obtain ⟨rest, hrest, h3⟩ := except_bind_ok h2
      cases h3
      cases i with
      | zero =>
        have hv0 : v = .nan := by simpa using hv
        subst hv0
        simpa using emaStep_nan_value n a a2 hema
      | succ j => simpa using ih as rest hrest j (by simpa using hv)

/-- A NaN accumulator position stays NaN through a successful update
loop. -/
theorem updateLoop_nan_keep (n : Int) :
    ∀ (values avgs l : List PyFloat), updateLoop n avgs values = .ok l →
      ∀ i : Nat, avgs.get? i = some .nan → l.get? i = some .nan := by
  intro values
  induction values with
  | nil =>
    intro avgs l h i ha
    simp only [updateLoop] at h
    cases h
    exact ha
  | cons v vs ih =>
    intro avgs l h i ha
    cases avgs with
    | nil => cases h
    | cons a as =>
      simp only [updateLoop] at h
      obtain ⟨a2, hema, h2⟩ := except_bind_ok h
      obtain ⟨rest, hrest, h3⟩ := except_bind_ok h2
      cases h3
      cases i with
      | zero =>
        have ha0 : a = .nan := by simpa using ha
        subst ha0
        simpa using emaStep_nan_acc n v a2 hema
      | succ j => simpa using ih as rest hrest j (by simpa using ha)

/-! ## Properties of the whole run -/

/-- Once initialized, the accumulator length is invariant across the
whole trace. -/
theorem runTrace_length (n : Int) :
    ∀ (rows : List (List PyFloat)) (st : List PyFloat) (states : List (List PyFloat)),
      runTrace n (some st) rows = .ok states →
      ∀ sEntry ∈ states, sEntry.length = st.length := by
  intro rows
  induction rows with
  | nil =>
    intro st states h sEntry hmem
    simp only [runTrace] at h
    cases h
    simp at hmem
  | cons row rest ih =>
    intro st states h sEntry hmem
    simp only [runTrace] at h
    obtain ⟨st2, hstep, h2⟩ := except_bind_ok h
    obtain ⟨tail, htail, h3⟩ := except_bind_ok h2
    cases h3
    have hlen : st2.length = st.length :=
      updateLoop_ok_length n row st st2 hstep
    rcases List.mem_cons.mp hmem with rfl | hmem
    · exact hlen
    · rw [ih st2 tail htail sEntry hmem, hlen]

/-- A NaN accumulator position stays NaN across the whole trace. -/
theorem runTrace_nan (n : Int) :
    ∀ (rows : List (List PyFloat)) (st : List PyFloat) (states : List (List PyFloat)) (i : Nat),
      runTrace n (some st) rows = .ok states → st.get? i = some .nan →
      ∀ sEntry ∈ states, sEntry.get? i = some .nan := by
  intro rows
  induction rows with
  | nil =>
    intro st states i h _ sEntry hmem
    simp only [runTrace] at h
    cases h
    simp at hmem
  | cons row rest ih =>
    intro st states i h hnan sEntry hmem
    simp only [runTrace] at h
    obtain ⟨st2, hstep, h2⟩ := except_bind_ok h
    obtain ⟨tail, htail, h3⟩ := except_bind_ok h2
    cases h3
    have h2nan : st2.get? i = some .nan :=
      updateLoop_nan_keep n row st st2 hstep i hnan
    rcases List.mem_cons.mp hmem with rfl | hmem
    · exact h2nan
    · exact ih st2 tail i htail h2nan sEntry hmem

/-- Writes before the pipe break behave exactly as in an unbroken run;
the `(k+1)`-st write raises `BrokenPipeError`, upon which the process
closes stderr and — the shutdown flush of the dirty stdout buffer
failing and overriding the handler's `sys.exit(32)` — terminates with
exit status 120 and no further output. -/
theorem runAux_broken (cfg : Config) :
    ∀ (lines : List String) (avgs? : Option (List PyFloat)) (k : Nat),
      k < (runAux cfg avgs? none lines).outputs.length →
      runAux cfg avgs? (some k) lines =
        ⟨(runAux cfg avgs? none lines).outputs.take k, .exited 120 true⟩ := by
  intro lines
  induction lines with
  | nil => intro avgs? k h; simp [runAux] at h
  | cons line rest ih =>
    intro avgs? k h
    cases hp : processLine cfg avgs? line with
    | error e =>
      rw [runAux, hp] at h
      simp at h
    | ok p =>
      obtain ⟨avgs2, out⟩ := p
      rw [runAux, hp] at h
      cases k with
      | zero => rw [runAux, hp]; rfl
      | succ k =>
        have hk : k < (runAux cfg (some avgs2) none rest).outputs.length := by
          simpa using h
        rw [runAux, hp]
        conv_rhs => rw [runAux, hp]
        simp only [ih (some avgs2) k hk]
        rfl

/-! ## Claims -/

set_option maxRecDepth 100000 in
/-- C1 (counterexample): the stop-only token `":2"` does not select the
range `[0, 2)`: it parses to the single-index slice `slice(2, 3)` —
indistinguishable from the bare token `"2"` after `slice(*parts)` — and
on a 5-field line selects exactly field 2, not fields 0 and 1. -/
theorem claim_C1_counterexample :
    _slice ":2" = some ⟨some 2, some 3, none⟩ ∧
    resolveToken ":2" ["a", "b", "c", "d", "e"] = some [2] ∧
    resolveToken ":2" ["a", "b", "c", "d", "e"] ≠ some [0, 1] :=
  ⟨by decide, by decide, by decide⟩

/-- C1 (amended): for every integer `b` the column-selector parser maps
the stop-only token `":b"` to the single-field slice `[b, b+1)` — the
same slice produced for the bare token `"b"`, since `slice(None, b)` is
what both build before the stop-only special case — not to the range
`[0, b)`. -/
theorem claim_C1 (b : Int) :
    sliceFromParts [none, some b] = some ⟨some b, some (b + 1), none⟩ ∧
    sliceFromParts [some b] = sliceFromParts [none, some b] :=
  ⟨rfl, rfl⟩

set_option maxRecDepth 100000 in
/-- C2: evaluation of the code at the failing input: on a 5-field line
the bare selector `"1"` selects exactly field 1 as claimed, but the bare
selector `"-1"` parses to `slice(-1, 0)` — whose resolved range is empty
for every field count — so it selects no field at all, not the last
field (index 4). -/
theorem claim_C2_eval :
    resolveToken "1" ["a", "b", "c", "d", "e"] = some [1] ∧
    resolveToken "-1" ["a", "b", "c", "d", "e"] = some [] ∧
    resolveToken "-1" ["a", "b", "c", "d", "e"] ≠ some [4] :=
  ⟨by decide, by decide, by decide⟩

set_option maxRecDepth 100000 in
/-- C3: evaluation of the code at the failing input: with window
`-n -1` (violating `num ≥ 1`) the program does not fail at startup.
The source's check `assert 1 <= num` (iir.py:53) names an undefined
variable, and the interpreter line's `-OO` strips asserts anyway, so the
input row is read, processed and emitted, and the run finishes
normally. -/
theorem claim_C3_eval :
    run ⟨"\t", [⟨none, none, none⟩], -1⟩ none ["10\n"] = ⟨["10.0"], .finished⟩ := by
  decide

set_option maxRecDepth 100000 in
/-- C4 (counterexample): a line projecting more fields than the
accumulator holds DOES abort the run: after a 1-field first line, a
2-field line reaches an out-of-range `avgs[i]`, the `IndexError` is
uncaught, and the process crashes. -/
theorem claim_C4_counterexample :
    run ⟨"\t", [⟨none, none, none⟩], 2⟩ none ["1\n", "1\t2\n"] =
      ⟨["1.0"], .crashed .indexError⟩ := by
  decide

/-- C4 (amended): with a nonzero window, when a later line's projected
field count is at most the accumulator length, the EMA update is
applied positionally to exactly those positions (the surplus
accumulator positions pass through) and processing continues; when the
projected count exceeds the accumulator length the update loop raises
`IndexError` and the process crashes — the condition is not
recoverable. -/
theorem claim_C4 (n : Int) (hn : n ≠ 0) (avgs values : List PyFloat) :
    (values.length ≤ avgs.length →
      updateLoop n avgs values =
        .ok (List.zipWith (emaVal n) avgs values ++ avgs.drop values.length)) ∧
    (avgs.length < values.length → updateLoop n avgs values = .error .indexError) :=
  ⟨fun h => updateLoop_ok_of_le n hn values avgs h,
   fun h => updateLoop_err_of_gt n hn values avgs h⟩

set_option maxRecDepth 100000 in
/-- Witness for C4: window 2, accumulator `[1, 2]`, one new value `4`:
the loop succeeds, updating position 0 and passing position 1
through. -/
theorem claim_C4_witness :
    updateLoop 2 [PyFloat.num 1, PyFloat.num 2] [PyFloat.num 4] =
      .ok (List.zipWith (emaVal 2) [PyFloat.num 1, PyFloat.num 2] [PyFloat.num 4] ++
        List.drop 1 [PyFloat.num 1, PyFloat.num 2]) :=
  (claim_C4 2 (by decide) [PyFloat.num 1, PyFloat.num 2] [PyFloat.num 4]).1 (by decide)

set_option maxRecDepth 100000 in
/-- C5 (counterexample): with window N = 3 and the single field value
`float("0.1")` the accumulator does not equal the input value from the
first line on: the update loop runs on the first line too, and its
binary64 roundings move the value up by one unit in the last place. -/
theorem claim_C5_counterexample :
    to_float "0.1" = PyFloat.num (mkRat 7205759403792794 72057594037927936) ∧
    stepAvgs 3 none [to_float "0.1"] =
      .ok [PyFloat.num (mkRat 7205759403792795 72057594037927936)] ∧
    stepAvgs 3 none [to_float "0.1"] ≠ .ok [to_float "0.1"] :=
  ⟨by decide, by decide, by decide⟩

/-- C5 (amended): for every window `N ≥ 1` and every value `v` such that
the update's intermediates incur no binary64 rounding (`N`, `v`, `v*N`
and `v*N - v` each round to themselves — e.g. any small integer value),
feeding the single-field value `v` on every line keeps the accumulator
exactly `[v]` after every line, from the first line on. -/
theorem claim_C5 (n : Int) (v : ℚ) (h1 : 1 ≤ n)
    (h2 : roundB64 ((n : ℚ)) = (n : ℚ)) (h3 : roundB64 v = v)
    (h4 : roundB64 (v * (n : ℚ)) = v * (n : ℚ))
    (h5 : roundB64 (v * (n : ℚ) - v) = v * (n : ℚ) - v) :
    ∀ k : Nat, runTrace n none (List.replicate (k + 1) [PyFloat.num v]) =
      .ok (List.replicate (k + 1) [PyFloat.num v]) := by
  have hn0 : n ≠ 0 := by omega
  have hmul : pyMulInt (.num v) n = .num (v * (n : ℚ)) := by
    simp only [pyMulInt]
    rw [h2, h4]
  have hsub : pySub (.num (v * (n : ℚ))) (.num v) = .num (v * (n : ℚ) - v) := by
    simp only [pySub]
    rw [h5]
  have haddv : pyAdd (.num (v * (n : ℚ) - v)) (.num v) = .num (v * (n : ℚ)) := by
    simp only [pyAdd]
    rw [sub_add_cancel, h4]
  have hdiv : pyDivInt (.num (v * (n : ℚ))) n = .ok (.num v) := by
    simp only [pyDivInt]
    rw [if_neg hn0, h2, mul_div_cancel_right₀ v (Int.cast_ne_zero.mpr hn0), h3]
  have hema : emaStep n (.num v) (.num v) = .ok (.num v) := by
    unfold emaStep
    rw [hmul, hsub, haddv, hdiv]
  have hupd : updateLoop n [PyFloat.num v] [PyFloat.num v] = .ok [PyFloat.num v] := by
    simp only [updateLoop, hema, exceptBindOk]
    rfl
  have aux : ∀ k : Nat,
      runTrace n (some [PyFloat.num v]) (List.replicate k [PyFloat.num v]) =
        .ok (List.replicate k [PyFloat.num v]) := by
    intro k
    induction k with
    | zero => rfl
    | succ k ih =>
      simp only [List.replicate_succ, runTrace, stepAvgs, Option.getD_some, hupd,
        exceptBindOk, ih]
      rfl
  intro k
  have hstep0 : stepAvgs n none [PyFloat.num v] = .ok [PyFloat.num v] := hupd
  simp only [List.replicate_succ, runTrace, hstep0, exceptBindOk, aux k]
  rfl

/-- Witness for C5: window 2, repeated value 5, two lines — the
accumulator is exactly `[5]` after each line. -/
theorem claim_C5_witness :
    runTrace 2 none (List.replicate 2 [PyFloat.num 5]) =
      .ok (List.replicate 2 [PyFloat.num 5]) :=
  claim_C5 2 5 (by decide) (by decide) (by decide) (by decide) (by decide) 1

/-- C6: NaN poisoning. If some row carries the parse failure of an
unparseable field (`to_float` maps it to NaN) at position `i`, then
every accumulator state from that row to the end of the stream — hence
every subsequent output — is NaN at position `i`, regardless of the
later rows' values: the recurrence `((avg*N) - avg + v)/N` never resets
a NaN accumulator. -/
theorem claim_C6 (n : Int) (st : Option (List PyFloat)) (fieldText : String)
    (hparse : parsePyFloat fieldText.toList = none)
    (row : List PyFloat) (i : Nat) (hrow : row.get? i = some (to_float fieldText))
    (rows states : List (List PyFloat))
    (h : runTrace n st (row :: rows) = .ok states) :
    ∀ sEntry ∈ states, sEntry.get? i = some PyFloat.nan := by
  have hnan : to_float fieldText = .nan := by
    unfold to_float
    rw [hparse]
  rw [hnan] at hrow
  simp only [runTrace] at h
  obtain ⟨st2, hstep, h2⟩ := except_bind_ok h
  obtain ⟨tail, htail, h3⟩ := except_bind_ok h2
  cases h3
  have hst2 : st2.get? i = some .nan :=
    updateLoop_nan_of_value n row (st.getD row) st2 hstep i hrow
  intro sEntry hmem
  rcases List.mem_cons.mp hmem with rfl | hmem
  · exact hst2
  · exact runTrace_nan n rows st2 tail i htail hst2 sEntry hmem

set_option maxRecDepth 100000 in
/-- Witness for C6: the field "abc" fails to parse, poisons column 0,
and a later valid value 5 does not reset it. -/
theorem claim_C6_witness :
    ([PyFloat.nan] : List PyFloat).get? 0 = some PyFloat.nan :=
  claim_C6 1 none "abc" (by decide) [to_float "abc"] 0 (by decide)
    [[PyFloat.num 5]] [[PyFloat.nan], [PyFloat.nan]] (by decide)
    [PyFloat.nan] (by decide)

set_option maxRecDepth 100000 in
/-- C7: the end-to-end reference run: window 2, default delimiter,
single-field lines "10", "20", "30" produce exactly the output lines
"10.0", "15.0", "22.5", one per input line, and the run finishes
normally. -/
theorem claim_C7 :
    run ⟨"\t", [⟨none, none, none⟩], 2⟩ none ["10\n", "20\n", "30\n"] =
      ⟨["10.0", "15.0", "22.5"], .finished⟩ := by
  decide

set_option maxRecDepth 100000 in
/-- C8: evaluation of the code at the failing input: when the
downstream pipe closes after accepting one line of a two-line run, the
failed `print` raises `BrokenPipeError`, no further output is emitted
and stderr is suppressed as claimed — but the process terminates with
exit status 120, not 32: the handler's `sys.exit(32)` is overridden
because the unwritten line left in stdout's buffer makes the
interpreter's shutdown flush fail (iir.py lacks the devnull
redirection of the Python docs' broken-pipe recipe, which its own
comment at iir.py:64 cites, and whose point is exactly to preserve the
requested exit code). -/
theorem claim_C8_eval :
    run ⟨"\t", [⟨none, none, none⟩], 2⟩ (some 1) ["10\n", "20\n"] =
      ⟨["10.0"], .exited 120 true⟩ ∧ (120 : Nat) ≠ 32 :=
  ⟨by decide, by decide⟩

/-- C9: every index produced by resolving the selector slices against a
line's fields lies in `[0, len fields)` — `slice.indices` clamps
out-of-range bounds — so projecting the line never reaches an
out-of-range field access: `fields[i]` succeeds for every produced
index. -/
theorem claim_C9 (slices : List PySlice) (fields : List String) (l : List Int)
    (h : to_indices slices fields = .ok l) :
    ∀ i ∈ l, 0 ≤ i ∧ i < (fields.length : Int) ∧ ∃ v, pyGet fields i = .ok v := by
  intro i hi
  obtain ⟨h0, hlen⟩ := to_indices_ok_bounds slices fields l h i hi
  refine ⟨h0, hlen, ?_⟩
  simp only [pyGet]
  split
  · rename_i hneg
    exact absurd hneg (not_lt.mpr h0)
  · rw [dif_pos ⟨h0, (by omega : i.toNat < fields.length)⟩]
    exact ⟨_, rfl⟩

/-- Witness for C9: the over-long slice `0:10` on a 2-field line clamps
to indices 0 and 1; index 1 is in range and the field access
succeeds. -/
theorem claim_C9_witness :
    0 ≤ (1 : Int) ∧ (1 : Int) < ((["a", "b"] : List String).length : Int) ∧
      ∃ v, pyGet ["a", "b"] 1 = .ok v :=
  claim_C9 [⟨some 0, some 10, none⟩] ["a", "b"] [0, 1] (by decide) 1 (by decide)

/-- C10: once the accumulator is initialized its length never changes —
every later state of the trace has the first state's length (so every
output line renders exactly that many fields); positions at or beyond a
shorter line's projected count keep their previous values; and each
emitted line is the delimiter-join of the whole accumulator. -/
theorem claim_C10 :
    (∀ (n : Int) (st : List PyFloat) (rows states : List (List PyFloat)),
        runTrace n (some st) rows = .ok states →
        ∀ sEntry ∈ states, sEntry.length = st.length) ∧
    (∀ (n : Int) (avgs values l : List PyFloat), updateLoop n avgs values = .ok l →
        ∀ i : Nat, values.length ≤ i → l.get? i = avgs.get? i) ∧
    (∀ (cfg : Config) (avgs? : Option (List PyFloat)) (line : String)
        (avgs2 : List PyFloat) (out : String),
        processLine cfg avgs? line = .ok (avgs2, out) →
        out = String.intercalate cfg.delimiter (avgs2.map pyStr)) := by
  refine ⟨fun n st rows states h => runTrace_length n rows st states h,
          fun n avgs values l h => updateLoop_ok_get_ge n values avgs l h, ?_⟩
  intro cfg avgs? line avgs2 out h
  simp only [processLine] at h
  obtain ⟨fields, hf, h2⟩ := except_bind_ok h
  obtain ⟨idxs, hidx, h3⟩ := except_bind_ok h2
  obtain ⟨values, hv, h4⟩ := except_bind_ok h3
  obtain ⟨avgs3, hup, h5⟩ := except_bind_ok h4
  cases h5
  rfl

set_option maxRecDepth 100000 in
/-- Witness for C10: a 1-field second line against a 2-position
accumulator leaves position 1 untouched; the trace keeps length 1; the
output line renders the whole accumulator. -/
theorem claim_C10_witness :
    (∀ sEntry ∈ [[PyFloat.num 2]], List.length sEntry = List.length [PyFloat.num 1]) ∧
    List.get? [PyFloat.num 2, PyFloat.num 5] 1 = List.get? [PyFloat.num 1, PyFloat.num 5] 1 ∧
    "2.0" = String.intercalate "\t" (List.map pyStr [PyFloat.num 2]) :=
  ⟨claim_C10.1 2 [PyFloat.num 1] [[PyFloat.num 3]] [[PyFloat.num 2]] (by decide),
   claim_C10.2.1 2 [PyFloat.num 1, PyFloat.num 5] [PyFloat.num 3]
     [PyFloat.num 2, PyFloat.num 5] (by decide) 1 (by decide),
   claim_C10.2.2 ⟨"\t", [⟨none, none, none⟩], 2⟩ (some [PyFloat.num 1]) "3"
     [PyFloat.num 2] "2.0" (by decide)⟩

end Iir
